import Mathlib

/-!
# Position-Responsive 3D Soundscape System: verification of spec claims

A shallow embedding of the audio core of the repository
(`audio_engine.py`, `eq_reverb.py`, `crosstalk.py`, `dsp_pipeline.py`,
`hrtf_engine.py`, `sensor_fusion.py`) together with proofs and refutations
of the specification's claims about it.

Floating-point arithmetic of the source is modelled by exact arithmetic:
the purely rational stages (source bank, EQ, reverb, crosstalk canceller)
are stated over an arbitrary linear ordered field so they can be run on `ℚ`
by `decide`, while the stages using transcendental functions (geometry,
HRTF synthesis, FFT convolution, Kalman filter) are stated over `ℝ`.
-/

namespace Soundscape

/-! ## Source bank (`src/audio_engine.py`) -/

/-- State of one audio source: the fixed sample buffer and the read cursor
(`AudioSource.audio_data`, `AudioSource.ptr`). -/
structure AudioSource (K : Type) where
  audio_data : List K
  ptr : ℕ

/-- Embeds `AudioSource.get_next_chunk` (src/audio_engine.py:34-42):
take the slice `audio_data[ptr : ptr+n]`, advance the cursor by `n`,
reset it to `0` when `ptr + n >= len(audio_data)` holds for the advanced
cursor, and zero-pad a short slice to length `n`. -/
def getNextChunk {K : Type} [Zero K] (s : AudioSource K) (n : ℕ) :
    List K × AudioSource K :=
  let chunk := (s.audio_data.drop s.ptr).take n
  let p1 := s.ptr + n
  let p2 := if s.audio_data.length ≤ p1 + n then 0 else p1
  (chunk ++ List.replicate (n - chunk.length) 0, ⟨s.audio_data, p2⟩)

/-! ## Environmental DSP (`src/eq_reverb.py`) -/

/-- State of `EnvironmentDSP`: the three EQ band gains, the reverb decay,
the single circular reverb buffer and its write cursor. -/
structure EnvironmentDSP (K : Type) where
  low_gain : K
  mid_gain : K
  high_gain : K
  reverb_decay : K
  reverb_buffer : List K
  ptr : ℕ

/-- Embeds `EnvironmentDSP.__init__` (src/eq_reverb.py:9-20): unit band
gains, decay `0.4`, an all-zero reverb buffer of
`int(sample_rate * 0.5)` samples, cursor `0`. -/
def envInit (K : Type) [LinearOrderedField K] (sample_rate : ℕ) :
    EnvironmentDSP K :=
  { low_gain := 1, mid_gain := 1, high_gain := 1, reverb_decay := 2 / 5,
    reverb_buffer := List.replicate (sample_rate / 2) 0, ptr := 0 }

/-- Embeds `EnvironmentDSP.apply_eq` (src/eq_reverb.py:22-27):
`data * (low_gain * 0.4 + mid_gain * 0.4 + high_gain * 0.2)`. -/
def applyEq {K : Type} [LinearOrderedField K] (env : EnvironmentDSP K)
    (data : List K) : List K :=
  data.map fun x =>
    x * (env.low_gain * (2 / 5) + env.mid_gain * (2 / 5) +
      env.high_gain * (1 / 5))

/-- In-place slice assignment `l[p : p+data.length] = data` of numpy,
for the case `p + data.length ≤ l.length` exercised by the reverb. -/
def setSlice {K : Type} (l : List K) (p : ℕ) (data : List K) : List K :=
  l.take p ++ data ++ l.drop (p + data.length)

/-- Embeds `EnvironmentDSP.apply_reverb` (src/eq_reverb.py:53-62):
`out = data + buffer[ptr : ptr+N] * decay`, then
`buffer[ptr : ptr+N] = data` and `ptr = (ptr + N) % (len(buffer) - N)`.
There is one shared buffer and one shared cursor in the state, not one
pair per stereo channel. -/
def applyReverb {K : Type} [LinearOrderedField K] (env : EnvironmentDSP K)
    (data : List K) : List K × EnvironmentDSP K :=
  let slice := (env.reverb_buffer.drop env.ptr).take data.length
  let out := List.zipWith (fun d b => d + b * env.reverb_decay) data slice
  let buf := setSlice env.reverb_buffer env.ptr data
  let p := (env.ptr + data.length) % (env.reverb_buffer.length - data.length)
  (out, { env with reverb_buffer := buf, ptr := p })

/-- Embeds the post-mix stage of `DSPPipeline.process`
(src/dsp_pipeline.py:56-58): `mixed_l = env.apply_reverb(env.apply_eq(mixed_l))`
then the same for `mixed_r`, with the single shared `self.env` state threaded
through both calls. -/
def postMixStereo {K : Type} [LinearOrderedField K] (env : EnvironmentDSP K)
    (mixed_l mixed_r : List K) : (List K × List K) × EnvironmentDSP K :=
  let lstep := applyReverb env (applyEq env mixed_l)
  let rstep := applyReverb lstep.2 (applyEq lstep.2 mixed_r)
  ((lstep.1, rstep.1), rstep.2)

/-- The post-mix stage as the specification words it: two separate
per-channel reverb states, each channel processed only on its own state.
Declared solely to compare the spec's reading against `postMixStereo`,
which embeds the code. -/
def specSeparatePostMixStereo {K : Type} [LinearOrderedField K]
    (envL envR : EnvironmentDSP K) (mixed_l mixed_r : List K) :
    List K × List K :=
  ((applyReverb envL (applyEq envL mixed_l)).1,
   (applyReverb envR (applyEq envR mixed_r)).1)

/-! ## Crosstalk canceller (`src/crosstalk.py`) -/

/-- `CrosstalkCanceller.alpha` (src/crosstalk.py:16): `0.7`. -/
def ctcAlpha (K : Type) [LinearOrderedField K] : K := 7 / 10

/-- Peak of a block: the maximum of the absolute values of its entries
(`np.max(np.abs(...))`, with `0` for the empty list). -/
def listPeak {K : Type} [LinearOrderedField K] (l : List K) : K :=
  l.foldr (fun x m => max |x| m) 0

/-- The per-sample cross-feed formula of `CrosstalkCanceller.process`:
`a * 1.1 - b * alpha * 0.5`. -/
def ctcFeed {K : Type} [LinearOrderedField K] (a b : K) : K :=
  a * (11 / 10) - b * ctcAlpha K * (1 / 2)

/-- Embeds `CrosstalkCanceller.process` (src/crosstalk.py:18-41):
`l_out = l_in * 1.1 - r_in * alpha * 0.5`,
`r_out = r_in * 1.1 - l_in * alpha * 0.5`, then peak normalization of both
channels if the joint peak exceeds `1`. -/
def ctcProcess {K : Type} [LinearOrderedField K] (l_in r_in : List K) :
    List K × List K :=
  let l_out := List.zipWith ctcFeed l_in r_in
  let r_out := List.zipWith ctcFeed r_in l_in
  let max_val := listPeak (l_out ++ r_out)
  if 1 < max_val then
    (l_out.map fun x => x / max_val, r_out.map fun x => x / max_val)
  else (l_out, r_out)

/-! ## Pipeline startup (`src/dsp_pipeline.py:12-16`, `src/eq_reverb.py:9-20`) -/

/-- The error kind the specification names for invalid configurations.
The source defines no such exception and performs no startup validation,
so the embedded constructor below never returns it; the `Except` wrapper
only makes the spec's failure mode statable. -/
inductive ConfigError where
  | invalidConfig : ConfigError
deriving DecidableEq

/-- State built by `DSPPipeline.__init__` (src/dsp_pipeline.py:12-16):
the HRTF engine gets `fft_size = chunk_size * 2`, the environment DSP gets
the sample rate, and the chunk size is stored. -/
structure DSPPipelineState (K : Type) where
  sample_rate : ℕ
  chunk_size : ℕ
  fft_size : ℕ
  env : EnvironmentDSP K

/-- Embeds `DSPPipeline.__init__` together with `EnvironmentDSP.__init__`:
there is no validation of any configuration field, so construction always
succeeds, whatever the block size. -/
def dspPipelineInit (K : Type) [LinearOrderedField K]
    (sample_rate chunk_size : ℕ) : Except ConfigError (DSPPipelineState K) :=
  Except.ok
    { sample_rate := sample_rate, chunk_size := chunk_size,
      fft_size := chunk_size * 2, env := envInit K sample_rate }

/-! ## Helper lemmas -/

theorem listPeak_nonneg {K : Type} [LinearOrderedField K] (l : List K) :
    0 ≤ listPeak l := by
  induction l with
  | nil => simp [listPeak]
  | cons x xs ih =>
      simp only [listPeak, List.foldr_cons]
      exact le_trans ih (le_max_right _ _)

theorem foldr_max_abs {K : Type} [LinearOrderedField K] (l : List K)
    (m : K) (hm : 0 ≤ m) :
    l.foldr (fun x acc => max |x| acc) m = max (listPeak l) m := by
  induction l with
  | nil => simp [listPeak, max_eq_right hm]
  | cons x xs ih =>
      simp only [listPeak, List.foldr_cons] at ih ⊢
      rw [ih, max_assoc]

theorem listPeak_append {K : Type} [LinearOrderedField K] (a b : List K) :
    listPeak (a ++ b) = max (listPeak a) (listPeak b) := by
  have h : listPeak (a ++ b) =
      a.foldr (fun x m => max |x| m) (listPeak b) := by
    rw [listPeak, List.foldr_append]; rfl
  rw [h, foldr_max_abs a _ (listPeak_nonneg b), max_comm]

theorem zipWith_replicate_right {K : Type} (f : K → K → K) (c : K) :
    ∀ (l : List K) (n : ℕ), n = l.length →
      List.zipWith f l (List.replicate n c) = l.map (fun x => f x c) := by
  intro l
  induction l with
  | nil => intro n _; simp
  | cons x xs ih =>
      intro n hn
      cases n with
      | zero => simp at hn
      | succ m =>
          simp only [List.replicate_succ, List.zipWith_cons_cons,
            List.map_cons]
          rw [ih m (by simpa using hn)]

theorem zipWith_replicate_left {K : Type} (f : K → K → K) (c : K) :
    ∀ (l : List K) (n : ℕ), n = l.length →
      List.zipWith f (List.replicate n c) l = l.map (fun x => f c x) := by
  intro l
  induction l with
  | nil => intro n _; simp
  | cons x xs ih =>
      intro n hn
      cases n with
      | zero => simp at hn
      | succ m =>
          simp only [List.replicate_succ, List.zipWith_cons_cons,
            List.map_cons]
          rw [ih m (by simpa using hn)]

theorem replicate_take {α : Type} (a : α) :
    ∀ (n m : ℕ), (List.replicate m a).take n = List.replicate (min n m) a := by
  intro n
  induction n with
  | zero => intro m; simp
  | succ k ih =>
      intro m
      cases m with
      | zero => simp
      | succ j =>
          simp only [List.replicate_succ, List.take_succ_cons, ih,
            Nat.succ_min_succ]

theorem replicate_drop {α : Type} (a : α) :
    ∀ (n m : ℕ), (List.replicate m a).drop n = List.replicate (m - n) a := by
  intro n
  induction n with
  | zero => intro m; simp
  | succ k ih =>
      intro m
      cases m with
      | zero => simp
      | succ j =>
          simp only [List.replicate_succ, List.drop_succ_cons, ih,
            Nat.succ_sub_succ]

theorem applyEq_gains_one {K : Type} [LinearOrderedField K]
    (env : EnvironmentDSP K) (data : List K)
    (h1 : env.low_gain = 1) (h2 : env.mid_gain = 1) (h3 : env.high_gain = 1) :
    applyEq env data = data := by
  simp only [applyEq, h1, h2, h3]
  norm_num

/-! ## Claim C1: source chunk delivery -/

/-- Claim C1, counterexample.  The claim says: when `cursor + n ≤ N` the call
returns `samples[cursor : cursor+n]` and advances the cursor by `n`.  At the
concrete source `samples = [1, 2, 3]`, `cursor = 0`, `n = 2` the premise
`0 + 2 ≤ 3` holds, yet the code resets the cursor to `0` instead of
advancing it to `2` (the reset triggers one chunk early, because it tests
`ptr + n ≥ N` after the advance); consequently index `2` of the buffer is
never delivered by any later call either. -/
theorem getNextChunk_claim_false :
    (0 : ℕ) + 2 ≤ [(1 : ℚ), 2, 3].length ∧
      (getNextChunk (⟨[(1 : ℚ), 2, 3], 0⟩ : AudioSource ℚ) 2).2.ptr ≠ 0 + 2 := by
  decide

/-- Claim C1, amended.  `get_next_chunk` returns a block of length `n` whose
`i`-th entry is `samples[cursor + i]` when that index exists and `0`
otherwise (the zero padding); the buffer is unchanged; and the new cursor is
`0` when `cursor + 2n ≥ N` (the reset is tested after the advance, hence
fires one chunk early) and `cursor + n` otherwise. -/
theorem getNextChunk_characterization {K : Type} [Zero K]
    (data : List K) (p n : ℕ) :
    (getNextChunk (⟨data, p⟩ : AudioSource K) n).1.length = n ∧
      (∀ i, i < n →
        ((getNextChunk (⟨data, p⟩ : AudioSource K) n).1).getD i 0 =
          data.getD (p + i) 0) ∧
      (getNextChunk (⟨data, p⟩ : AudioSource K) n).2.audio_data = data ∧
      (getNextChunk (⟨data, p⟩ : AudioSource K) n).2.ptr =
        if data.length ≤ p + n + n then 0 else p + n := by
  refine ⟨?_, ?_, rfl, rfl⟩
  · simp only [getNextChunk, List.length_append, List.length_replicate,
      List.length_take, List.length_drop]
    omega
  · intro i hi
    simp only [getNextChunk]
    rw [List.getD_eq_getElem?_getD, List.getD_eq_getElem?_getD]
    by_cases hcase : i < ((data.drop p).take n).length
    · rw [List.getElem?_append_left hcase, List.getElem?_take_of_lt hi,
        List.getElem?_drop]
    · push_neg at hcase
      rw [List.getElem?_append_right hcase, List.getElem?_replicate]
      have hlen : ((data.drop p).take n).length = min n (data.length - p) := by
        simp
      rw [hlen] at hcase
      have hdata : data.length ≤ p + i := by omega
      rw [if_pos (by simp [hlen]; omega), List.getElem?_eq_none hdata]
      rfl

/-- Witness for `getNextChunk_characterization` at `samples = [1, 2, 3]`,
`cursor = 0`, `n = 2`, index `1`. -/
theorem getNextChunk_characterization_witness :
    (1 : ℕ) < 2 ∧
      ((getNextChunk (⟨[(1 : ℚ), 2, 3], 0⟩ : AudioSource ℚ) 2).1).getD 1 0 =
        [(1 : ℚ), 2, 3].getD (0 + 1) 0 :=
  ⟨by decide,
    (getNextChunk_characterization [(1 : ℚ), 2, 3] 0 2).2.1 1 (by decide)⟩

/-! ## Claim C2: stereo reverb state -/

/-- Small concrete `EnvironmentDSP` state over `ℚ`: unit gains, decay `0.4`,
an all-zero 4-sample reverb buffer, cursor `0` (a scale model of the
initialized state for two-sample blocks). -/
def testEnv : EnvironmentDSP ℚ :=
  { low_gain := 1, mid_gain := 1, high_gain := 1, reverb_decay := 2 / 5,
    reverb_buffer := List.replicate 4 0, ptr := 0 }

/-- Claim C2, counterexample.  Starting from the all-zero reverb state, one
rendered block with left mix `[1, 1]` and right mix `[0, 0]` makes the code's
right-channel reverb output `[2/5, 2/5]`: the right channel echoes the left
channel's input, because `DSPPipeline.process` calls `apply_reverb` twice on
the one shared buffer and cursor of `self.env`.  Under the claimed semantics
(`specSeparatePostMixStereo`, one separate reverb state per channel) the
right output of the same block is `[0, 0]`. -/
theorem postMixStereo_claim_false :
    (postMixStereo testEnv [1, 1] [0, 0]).1.2 = [(2 : ℚ) / 5, 2 / 5] ∧
      (specSeparatePostMixStereo testEnv testEnv [1, 1] [0, 0]).2 =
        [(0 : ℚ), 0] := by
  constructor
  · norm_num [postMixStereo, applyReverb, applyEq, setSlice, testEnv,
      List.replicate, List.zipWith]
  · norm_num [specSeparatePostMixStereo, applyReverb, applyEq, setSlice,
      testEnv, List.replicate, List.zipWith]

/-- Claim C2, amended.  The reverb keeps a single circular buffer and cursor
shared by both stereo channels; the left channel is processed first and
mutates this shared state, so the right channel's reverb output depends on
the left channel's input.  Quantitatively: from an all-zero buffer of length
`2n` with cursor `0` and unit EQ gains, a block with left mix `l` (length
`n`) and all-zero right mix produces right output `l * decay` — the left
input leaks into the right channel at the full reverb gain. -/
theorem postMixStereo_right_echoes_left
    (env : EnvironmentDSP ℚ) (l : List ℚ) (n : ℕ)
    (h1 : env.low_gain = 1) (h2 : env.mid_gain = 1) (h3 : env.high_gain = 1)
    (hbuf : env.reverb_buffer = List.replicate (2 * n) 0)
    (hl : l.length = n) (hn : 0 < n) (hp : env.ptr = 0) :
    (postMixStereo env l (List.replicate n 0)).1.2 =
      l.map (fun x => x * env.reverb_decay) := by
  have h2n : 2 * n - n = n := by omega
  have heql : applyEq env l = l := applyEq_gains_one env l h1 h2 h3
  have hbuf1 : setSlice env.reverb_buffer env.ptr l =
      l ++ List.replicate n 0 := by
    rw [hbuf, hp, setSlice, List.take_zero, List.nil_append, hl,
      Nat.zero_add, replicate_drop, h2n]
  have hptr1 : (env.ptr + l.length) %
      (env.reverb_buffer.length - l.length) = 0 := by
    rw [hp, hbuf, hl, List.length_replicate, Nat.zero_add, h2n,
      Nat.mod_self]
  have henv1 : (applyReverb env (applyEq env l)).2 =
      ⟨env.low_gain, env.mid_gain, env.high_gain, env.reverb_decay,
        l ++ List.replicate n 0, 0⟩ := by
    rw [heql]
    simp only [applyReverb]
    rw [hbuf1, hptr1]
  have heqr : applyEq
      (⟨env.low_gain, env.mid_gain, env.high_gain, env.reverb_decay,
        l ++ List.replicate n 0, 0⟩ : EnvironmentDSP ℚ)
      (List.replicate n 0) = List.replicate n 0 :=
    applyEq_gains_one _ _ h1 h2 h3
  simp only [postMixStereo, henv1, heqr]
  simp only [applyReverb, List.length_replicate, List.drop_zero]
  rw [List.take_left' hl, zipWith_replicate_left _ _ l n hl.symm]
  apply List.map_congr_left
  intro a _
  ring

/-- Witness for `postMixStereo_right_echoes_left` at the concrete state
`testEnv` with left mix `[1, 1]`. -/
theorem postMixStereo_right_echoes_left_witness :
    (postMixStereo testEnv [1, 1] (List.replicate 2 0)).1.2 =
      [(1 : ℚ), 1].map (fun x => x * testEnv.reverb_decay) :=
  postMixStereo_right_echoes_left testEnv [1, 1] 2 rfl rfl rfl rfl rfl
    (by norm_num) rfl

/-! ## Claim C7: identity EQ -/

/-- Claim C7, confirmed.  With all three band gains equal to `1`, `apply_eq`
returns its input unchanged: the scalar `1 * 0.4 + 1 * 0.4 + 1 * 0.2`
equals `1` exactly (also in the binary64 arithmetic of the source, where
`0.4 + 0.4` is exact and `0.8 + 0.2` rounds to `1.0`). -/
theorem applyEq_identity {K : Type} [LinearOrderedField K]
    (env : EnvironmentDSP K) (data : List K)
    (h1 : env.low_gain = 1) (h2 : env.mid_gain = 1) (h3 : env.high_gain = 1) :
    applyEq env data = data :=
  applyEq_gains_one env data h1 h2 h3

/-- Witness for `applyEq_identity` at `testEnv` and a concrete block. -/
theorem applyEq_identity_witness :
    applyEq testEnv [(3 : ℚ) / 7, -2, 0] = [(3 : ℚ) / 7, -2, 0] :=
  applyEq_identity testEnv [(3 : ℚ) / 7, -2, 0] rfl rfl rfl

/-! ## Claim C8: crosstalk-cancellation symmetry -/

/-- Claim C8, confirmed.  Swapping the left and right input blocks of
`CrosstalkCanceller.process` swaps its left and right output blocks exactly:
the two cross-feed formulas are mirror images, and the peak-normalization
threshold is computed from both channels jointly, hence is invariant under
the swap. -/
theorem ctcProcess_swap {K : Type} [LinearOrderedField K] (l r : List K) :
    ctcProcess r l = ((ctcProcess l r).2, (ctcProcess l r).1) := by
  simp only [ctcProcess]
  have hmax : listPeak (List.zipWith ctcFeed r l ++ List.zipWith ctcFeed l r) =
      listPeak (List.zipWith ctcFeed l r ++ List.zipWith ctcFeed r l) := by
    rw [listPeak_append, listPeak_append, max_comm]
  rw [hmax]
  split_ifs with h <;> rfl

/-! ## Claim C9: startup configuration validation -/

/-- Claim C9, counterexample.  The configuration `sample_rate = 96000`,
`block_size = 25000` violates `2 * block_size ≤ reverb_buffer_len`
(`50000 > 48000`), yet pipeline construction does not fail: neither
`DSPPipeline.__init__` nor `EnvironmentDSP.__init__` contains any
validation, and no `ConfigError` exists in the source. -/
theorem dspPipelineInit_claim_false :
    2 * 25000 > (envInit ℚ 96000).reverb_buffer.length ∧
      ¬∃ e, dspPipelineInit ℚ 96000 25000 = Except.error e := by
  constructor
  · simp only [envInit, List.length_replicate]
    norm_num
  · rintro ⟨e, h⟩
    simp only [dspPipelineInit] at h
    exact Except.noConfusion h

/-- Claim C9, amended.  No configuration is rejected at startup: for every
sample rate and block size — in particular every block size violating
`2 * block_size ≤ reverb_buffer_len` — construction succeeds and yields a
state whose reverb buffer has `sample_rate / 2` samples and whose stored
chunk size is the requested one; rendering then proceeds unvalidated. -/
theorem dspPipelineInit_never_fails (sr bs : ℕ)
    (_hviol : 2 * bs > (envInit ℚ sr).reverb_buffer.length) :
    ∃ st, dspPipelineInit ℚ sr bs = Except.ok st ∧
      st.env.reverb_buffer.length = sr / 2 ∧ st.chunk_size = bs := by
  refine ⟨_, rfl, ?_, rfl⟩
  simp only [dspPipelineInit, envInit, List.length_replicate]

/-- Witness for `dspPipelineInit_never_fails` at the violating configuration
`sample_rate = 96000`, `block_size = 25000`. -/
theorem dspPipelineInit_never_fails_witness :
    ∃ st, dspPipelineInit ℚ 96000 25000 = Except.ok st ∧
      st.env.reverb_buffer.length = 96000 / 2 ∧ st.chunk_size = 25000 :=
  dspPipelineInit_never_fails 96000 25000
    (by simp only [envInit, List.length_replicate]; norm_num)

/-! ## Kalman position filter (`src/sensor_fusion.py`) -/

noncomputable section

open Matrix

/-- `KalmanFilter3D` time step `dt` (src/sensor_fusion.py:10): `0.01` s. -/
def kalDt : ℝ := 0.01

/-- Process noise `pos_Q = np.eye(6) * 0.01` (src/sensor_fusion.py:17). -/
def posQ : Matrix (Fin 6) (Fin 6) ℝ := (0.01 : ℝ) • (1 : Matrix (Fin 6) (Fin 6) ℝ)

/-- Measurement noise `pos_R = np.eye(3) * 0.15` (src/sensor_fusion.py:20):
the diagonal holds `0.15`, not `0.15 ** 2`. -/
def posR : Matrix (Fin 3) (Fin 3) ℝ := (0.15 : ℝ) • (1 : Matrix (Fin 3) (Fin 3) ℝ)

/-- Transition matrix `pos_F` (src/sensor_fusion.py:23-26): identity with
`F[0,3] = F[1,4] = F[2,5] = dt`. -/
def posF : Matrix (Fin 6) (Fin 6) ℝ :=
  Matrix.of fun i j => if i = j then 1 else if (j : ℕ) = (i : ℕ) + 3 then kalDt else 0

/-- Observation matrix `pos_H` (src/sensor_fusion.py:29-32): projection onto
the first three state components. -/
def posH : Matrix (Fin 3) (Fin 6) ℝ :=
  Matrix.of fun i j => if (j : ℕ) = (i : ℕ) then 1 else 0

/-- The position sub-filter state of `KalmanFilter3D`: state vector
`[x, y, z, vx, vy, vz]` and covariance `P`. -/
structure KalmanFilter3D where
  pos_state : Fin 6 → ℝ
  pos_P : Matrix (Fin 6) (Fin 6) ℝ

/-- Embeds `KalmanFilter3D.__init__` (src/sensor_fusion.py:9-32):
`pos_state = np.zeros(6)`, `pos_P = np.eye(6) * 1.0`. -/
def kfInit : KalmanFilter3D :=
  { pos_state := fun _ => 0, pos_P := (1 : Matrix (Fin 6) (Fin 6) ℝ) }

/-- Embeds `KalmanFilter3D.predict` (src/sensor_fusion.py:34-37):
`x = F x`, `P = F P Fᵀ + Q`. -/
def predict (kf : KalmanFilter3D) : KalmanFilter3D :=
  { pos_state := posF *ᵥ kf.pos_state,
    pos_P := posF * kf.pos_P * posFᵀ + posQ }

/-- Embeds `KalmanFilter3D.update_position` (src/sensor_fusion.py:39-46):
innovation `y = z - H x`, `S = H P Hᵀ + R`, gain `K = P Hᵀ S⁻¹`
(`np.linalg.inv`), `x = x + K y`, `P = (I - K H) P` — with no Joseph form
and no explicit symmetrization. -/
def updatePosition (kf : KalmanFilter3D) (z : Fin 3 → ℝ) : KalmanFilter3D :=
  let y := z - posH *ᵥ kf.pos_state
  let S := posH * kf.pos_P * posHᵀ + posR
  let K := kf.pos_P * posHᵀ * S⁻¹
  { pos_state := kf.pos_state + K *ᵥ y,
    pos_P := (1 - K * posH) * kf.pos_P }

/-- A step of the position filter, as driven by `SensorFusion.update`:
either a prediction or a measurement update with an arbitrary position
measurement `z`. -/
inductive KOp where
  | predictOp : KOp
  | updateOp : (Fin 3 → ℝ) → KOp

/-- Runs a sequence of filter steps. -/
def runOps : List KOp → KalmanFilter3D → KalmanFilter3D
  | [], kf => kf
  | KOp.predictOp :: rest, kf => runOps rest (predict kf)
  | KOp.updateOp z :: rest, kf => runOps rest (updatePosition kf z)

theorem posQ_posSemidef : posQ.PosSemidef := by
  rw [posQ, Matrix.smul_one_eq_diagonal]
  exact Matrix.PosSemidef.diagonal fun i => by norm_num

theorem posR_posSemidef : posR.PosSemidef := by
  rw [posR, Matrix.smul_one_eq_diagonal]
  exact Matrix.PosSemidef.diagonal fun i => by norm_num

theorem posR_posDef : posR.PosDef := by
  rw [posR, Matrix.smul_one_eq_diagonal]
  exact Matrix.PosDef.diagonal fun i => by norm_num

theorem isSymm_of_posSemidef {n : Type} [Fintype n]
    {A : Matrix n n ℝ} (h : A.PosSemidef) : A.IsSymm := by
  have hh := h.isHermitian
  rwa [Matrix.IsHermitian, Matrix.conjTranspose_eq_transpose_of_trivial] at hh

theorem posSemidef_predict {P : Matrix (Fin 6) (Fin 6) ℝ} (hP : P.PosSemidef) :
    (posF * P * posFᵀ + posQ).PosSemidef := by
  have h1 := hP.mul_mul_conjTranspose_same posF
  rw [Matrix.conjTranspose_eq_transpose_of_trivial] at h1
  exact h1.add posQ_posSemidef

theorem posDef_innovation {P : Matrix (Fin 6) (Fin 6) ℝ} (hP : P.PosSemidef) :
    (posH * P * posHᵀ + posR).PosDef := by
  have h1 := hP.mul_mul_conjTranspose_same posH
  rw [Matrix.conjTranspose_eq_transpose_of_trivial] at h1
  exact Matrix.PosDef.posSemidef_add h1 posR_posDef

/-- Joseph-form identity: in exact arithmetic, whenever the gain `K`
satisfies `K (H P Hᵀ + R) = P Hᵀ`, the posterior covariance
`(I - K H) P` equals `(I - K H) P (I - K H)ᵀ + K R Kᵀ`, a sum of two
positive semidefinite terms. -/
theorem joseph_identity {n m : Type} [Fintype n] [Fintype m] [DecidableEq n]
    (P : Matrix n n ℝ) (R : Matrix m m ℝ) (H : Matrix m n ℝ)
    (K : Matrix n m ℝ) (hK : K * (H * P * Hᵀ + R) = P * Hᵀ) :
    (1 - K * H) * P = (1 - K * H) * P * (1 - K * H)ᵀ + K * R * Kᵀ := by
  have hK3 : K * (H * P * Hᵀ) * Kᵀ + K * R * Kᵀ = P * Hᵀ * Kᵀ := by
    rw [← Matrix.add_mul, ← Matrix.mul_add, hK]
  have hMT : (1 - K * H)ᵀ = 1 - Hᵀ * Kᵀ := by
    rw [Matrix.transpose_sub, Matrix.transpose_one, Matrix.transpose_mul]
  rw [hMT]
  simp only [Matrix.sub_mul, Matrix.mul_sub, Matrix.one_mul, Matrix.mul_one,
    Matrix.mul_assoc] at hK3 ⊢
  rw [eq_sub_of_add_eq hK3]
  abel

theorem posSemidef_update {P : Matrix (Fin 6) (Fin 6) ℝ} (hP : P.PosSemidef) :
    ((1 - P * posHᵀ * (posH * P * posHᵀ + posR)⁻¹ * posH) * P).PosSemidef := by
  set S := posH * P * posHᵀ + posR with hS
  have hSpd : S.PosDef := posDef_innovation hP
  have hdet : IsUnit S.det := isUnit_iff_ne_zero.mpr (ne_of_gt hSpd.det_pos)
  set K := P * posHᵀ * S⁻¹ with hKdef
  have hKS : K * S = P * posHᵀ := by
    rw [hKdef, Matrix.mul_assoc, Matrix.nonsing_inv_mul S hdet, Matrix.mul_one]
  rw [joseph_identity P posR posH K (by rw [← hS]; exact hKS)]
  have h1 := hP.mul_mul_conjTranspose_same (1 - K * posH)
  rw [Matrix.conjTranspose_eq_transpose_of_trivial] at h1
  have h2 := posR_posSemidef.mul_mul_conjTranspose_same K
  rw [Matrix.conjTranspose_eq_transpose_of_trivial] at h2
  exact h1.add h2

theorem runOps_posSemidef :
    ∀ (ops : List KOp) (kf : KalmanFilter3D),
      kf.pos_P.PosSemidef → (runOps ops kf).pos_P.PosSemidef
  | [], _, h => h
  | KOp.predictOp :: rest, kf, h =>
      runOps_posSemidef rest (predict kf) (posSemidef_predict h)
  | KOp.updateOp z :: rest, kf, h =>
      runOps_posSemidef rest (updatePosition kf z) (posSemidef_update h)

/-! ## Claim C5: Kalman noise matrices -/

/-- Claim C5, counterexample.  The claim says the measurement noise `R` has
diagonal entries `0.15² = 0.0225`; the code sets `pos_R = np.eye(3) * 0.15`,
whose diagonal entry is `0.15 ≠ 0.0225`. -/
theorem kalman_R_claim_false :
    posR 0 0 = (0.15 : ℝ) ∧ (0.15 : ℝ) ≠ 0.15 ^ 2 := by
  constructor
  · simp [posR, Matrix.smul_apply, Matrix.one_apply_eq]
  · norm_num

/-- Claim C5, amended.  The filter is constructed with process noise `Q`
equal to the 6×6 diagonal matrix with entries `0.01`, and measurement noise
`R` equal to the 3×3 diagonal matrix with entries `0.15` (the standard
deviation used directly, not its square `0.0225`). -/
theorem kalman_noise_matrices (i j : Fin 6) (k l : Fin 3) :
    posQ i j = (if i = j then (0.01 : ℝ) else 0) ∧
      posR k l = (if k = l then (0.15 : ℝ) else 0) := by
  constructor
  · simp only [posQ, Matrix.smul_apply, Matrix.one_apply, smul_eq_mul]
    split_ifs <;> norm_num
  · simp only [posR, Matrix.smul_apply, Matrix.one_apply, smul_eq_mul]
    split_ifs <;> norm_num

/-! ## Claim C6: covariance stays symmetric positive semidefinite -/

/-- Claim C6, confirmed (in the exact arithmetic of the model; the code
applies no extra numerical symmetrization — none is needed algebraically,
since `(I - K H) P = (I - K H) P (I - K H)ᵀ + K R Kᵀ` holds exactly).
For every sequence of `predict` and `update_position` steps from the
initial covariance `I`, the covariance `P` remains symmetric and positive
semidefinite. -/
theorem kalman_covariance_psd (ops : List KOp) :
    ((runOps ops kfInit).pos_P).IsSymm ∧
      ((runOps ops kfInit).pos_P).PosSemidef := by
  have h := runOps_posSemidef ops kfInit Matrix.PosSemidef.one
  exact ⟨isSymm_of_posSemidef h, h⟩

end

/-! ## HRTF engine (`src/hrtf_engine.py`) -/

noncomputable section

/-- `HRTF_Engine.filter_length` (src/hrtf_engine.py:18): `1024`. -/
def filterLength : ℕ := 1024

/-- FFT length used by the pipeline: `DSPPipeline.__init__` constructs
`HRTF_Engine(sample_rate, chunk_size * 2)` with `chunk_size = 1024`,
so `fft_size = 2048`. -/
def fftSize : ℕ := 2048

/-- Python float `%` (as in `azimuth % 360` of `get_nearest_hrtf`): the
remainder with the sign of the divisor, `a - b * floor(a / b)`. -/
def pyMod (a b : ℝ) : ℝ := a - b * ⌊a / b⌋

/-- Azimuth grid index of `get_nearest_hrtf` (src/hrtf_engine.py:64-66):
`int(round((azimuth % 360) / 15.0)) % 24`.  (Lean's `round` rounds half
away from zero while Python rounds half to even; the two differ only when
`(azimuth % 360) / 15` is an exact half-integer, in which case both
neighboring grid cells are at exactly 7.5°, so every distance bound proved
below holds for either convention.) -/
def azIdx (azimuth : ℝ) : ℤ := round (pyMod azimuth 360 / 15) % 24

/-- Elevation grid index of `get_nearest_hrtf` (src/hrtf_engine.py:67-68):
`clamp(round((elevation + 90) / 15), 0, 11)`. -/
def elIdx (elevation : ℝ) : ℤ := max 0 (min 11 (round ((elevation + 90) / 15)))

/-- `target_az = az_idx * 15` (src/hrtf_engine.py:70). -/
def targetAz (azimuth : ℝ) : ℤ := azIdx azimuth * 15

/-- `target_el = el_idx * 15 - 90` (src/hrtf_engine.py:71). -/
def targetEl (elevation : ℝ) : ℤ := elIdx elevation * 15 - 90

/-- Head radius `r = 0.0875` m (src/hrtf_engine.py:27). -/
def headRadius : ℝ := 0.0875

/-- Speed of sound `c = 343` m/s. -/
def speedOfSound : ℝ := 343

/-- `np.radians`. -/
def degToRad (x : ℝ) : ℝ := x * Real.pi / 180

/-- Woodworth ITD in seconds (src/hrtf_engine.py:26-31):
`theta = radians(azimuth % 180)`, `itd = (r/c) * (theta + sin theta)`,
negated for `azimuth > 180`.  `azimuth` is the integer grid azimuth. -/
def itdSec (az : ℤ) : ℝ :=
  let theta := degToRad ((az % 180 : ℤ) : ℝ)
  let base := (headRadius / speedOfSound) * (theta + Real.sin theta)
  if 180 < az then -base else base

/-- `itd_samples = int(round(itd_sec * sample_rate))` (src/hrtf_engine.py:33). -/
def itdSamples (sr : ℕ) (az : ℤ) : ℤ := round (itdSec az * sr)

/-- `ild_factor = 0.5 + 0.5 * cos(radians(azimuth))` (src/hrtf_engine.py:37). -/
def ildFactor (az : ℤ) : ℝ := 0.5 + 0.5 * Real.cos (degToRad az)

/-- Left impulse position `idx_l = 100 + (itd_samples // 2 if itd_samples > 0
else 0)` (src/hrtf_engine.py:44).  The operands of `//` are nonnegative in
the taken branch, where Python floor division agrees with `Int.div`. -/
def impulseIdxL (sr : ℕ) (az : ℤ) : ℤ :=
  100 + (if 0 < itdSamples sr az then itdSamples sr az / 2 else 0)

/-- Right impulse position (src/hrtf_engine.py:45). -/
def impulseIdxR (sr : ℕ) (az : ℤ) : ℤ :=
  100 + (if itdSamples sr az < 0 then -itdSamples sr az / 2 else 0)

/-- Left impulse amplitude (src/hrtf_engine.py:47). -/
def impulseAmpL (sr : ℕ) (az : ℤ) : ℝ :=
  if 0 ≤ itdSamples sr az then 1 else ildFactor az

/-- Right impulse amplitude (src/hrtf_engine.py:48). -/
def impulseAmpR (sr : ℕ) (az : ℤ) : ℝ :=
  if itdSamples sr az ≤ 0 then 1 else ildFactor az

/-- High-frequency coloration added to both impulse responses
(src/hrtf_engine.py:50-53): `0.05 * exp(-t/100) * sin(2*pi*7000*t/sr)`. -/
def hfColor (sr : ℕ) (t : ℕ) : ℝ :=
  0.05 * Real.exp (-(t : ℝ) / 100) * Real.sin (2 * Real.pi * 7000 * t / sr)

/-- Left synthetic impulse response of length 1024 (src/hrtf_engine.py:39-53). -/
def irL (sr : ℕ) (az : ℤ) (t : Fin filterLength) : ℝ :=
  (if (t : ℤ) = impulseIdxL sr az then impulseAmpL sr az else 0) + hfColor sr t

/-- Right synthetic impulse response of length 1024 (src/hrtf_engine.py:39-53). -/
def irR (sr : ℕ) (az : ℤ) (t : Fin filterLength) : ℝ :=
  (if (t : ℤ) = impulseIdxR sr az then impulseAmpR sr az else 0) + hfColor sr t

/-- The discrete Fourier transform of length `n` with numpy's sign
convention, `X[k] = sum_j x[j] * exp(-2*pi*i*j*k/n)` (models `scipy.fft.fft`). -/
def dft (n : ℕ) (x : Fin n → ℂ) (k : Fin n) : ℂ :=
  ∑ j, x j * Complex.exp (-2 * Real.pi * Complex.I * (j : ℕ) * (k : ℕ) / n)

/-- The inverse DFT, `x[j] = (1/n) * sum_k X[k] * exp(2*pi*i*j*k/n)`
(models `scipy.fft.ifft`). -/
def idft (n : ℕ) (x : Fin n → ℂ) (k : Fin n) : ℂ :=
  (1 / (n : ℂ)) * ∑ j, x j * Complex.exp (2 * Real.pi * Complex.I * (j : ℕ) * (k : ℕ) / n)

/-- Zero-padding of a 1024-tap impulse response to the FFT length, as done
by `fft(ir, self.fft_size)`. -/
def padIR (ir : Fin filterLength → ℝ) (j : Fin fftSize) : ℂ :=
  if h : (j : ℕ) < filterLength then ((ir ⟨j, h⟩ : ℝ) : ℂ) else 0

/-- The precomputed left/right spectra for one grid azimuth
(src/hrtf_engine.py:55: `(fft(ir_l, fft_size), fft(ir_r, fft_size))`);
the impulse responses depend only on the azimuth, not the elevation. -/
def gridSpectra (sr : ℕ) (az : ℤ) : (Fin fftSize → ℂ) × (Fin fftSize → ℂ) :=
  (dft fftSize (padIR (irL sr az)), dft fftSize (padIR (irR sr az)))

/-- The synthetic HRTF database `_generate_synthetic_hrtf`
(src/hrtf_engine.py:20-60) as an association list keyed by
`(elevation, azimuth) = (el*15 - 90, az*15)` for `el ∈ [0,12)`,
`az ∈ [0,24)`. -/
def hrtfDB (sr : ℕ) : List ((ℤ × ℤ) × ((Fin fftSize → ℂ) × (Fin fftSize → ℂ))) :=
  (List.range 12).flatMap fun (el : ℕ) =>
    (List.range 24).map fun (az : ℕ) =>
      (((el : ℤ) * 15 - 90, (az : ℤ) * 15), gridSpectra sr ((az : ℤ) * 15))

/-- Embeds `HRTF_Engine.get_nearest_hrtf` (src/hrtf_engine.py:62-74);
`none` models a `KeyError` on `self.hrtf_db[target_el][target_az]`. -/
def getNearestHrtf (sr : ℕ) (azimuth elevation : ℝ) :
    Option ((Fin fftSize → ℂ) × (Fin fftSize → ℂ)) :=
  (hrtfDB sr).lookup (targetEl elevation, targetAz azimuth)

theorem pyMod_eq_fract (a b : ℝ) (hb : b ≠ 0) :
    pyMod a b = b * Int.fract (a / b) := by
  rw [pyMod, Int.fract, mul_sub, mul_div_cancel₀ a hb]

theorem pyMod_nonneg (a b : ℝ) (hb : 0 < b) : 0 ≤ pyMod a b := by
  rw [pyMod_eq_fract a b hb.ne.symm]
  exact mul_nonneg hb.le (Int.fract_nonneg _)

theorem pyMod_lt (a b : ℝ) (hb : 0 < b) : pyMod a b < b := by
  rw [pyMod_eq_fract a b hb.ne.symm]
  calc b * Int.fract (a / b) < b * 1 :=
        (mul_lt_mul_left hb).mpr (Int.fract_lt_one _)
    _ = b := mul_one b

theorem azIdx_nonneg (az : ℝ) : 0 ≤ azIdx az :=
  Int.emod_nonneg _ (by norm_num)

theorem azIdx_lt (az : ℝ) : azIdx az < 24 :=
  Int.emod_lt_of_pos _ (by norm_num)

theorem elIdx_nonneg (el : ℝ) : 0 ≤ elIdx el := le_max_left 0 _

theorem elIdx_le (el : ℝ) : elIdx el ≤ 11 :=
  max_le (by norm_num) (min_le_left 11 _)

theorem lookup_isSome_of_mem {α β : Type} [BEq α] [LawfulBEq α]
    {k : α} {v : β} :
    ∀ {l : List (α × β)}, (k, v) ∈ l → (l.lookup k).isSome
  | (k2, v2) :: rest, h => by
      rcases List.mem_cons.mp h with heq | hmem
      · obtain ⟨hk, hv⟩ := Prod.mk.injEq .. ▸ heq
        simp [List.lookup, hk.symm]
      · by_cases hbeq : k == k2
        · simp [List.lookup, hbeq]
        · simp only [List.lookup, hbeq]
          exact lookup_isSome_of_mem hmem

theorem hrtf_key_mem (az el : ℝ) :
    ((targetEl el, targetAz az),
      gridSpectra 96000 (targetAz az)) ∈ hrtfDB 96000 := by
  have hel0 := elIdx_nonneg el
  have hel1 := elIdx_le el
  have haz0 := azIdx_nonneg az
  have haz1 := azIdx_lt az
  have he : ((elIdx el).toNat : ℤ) = elIdx el := Int.toNat_of_nonneg hel0
  have ha : ((azIdx az).toNat : ℤ) = azIdx az := Int.toNat_of_nonneg haz0
  have hmem12 : (elIdx el).toNat ∈ List.range 12 := List.mem_range.mpr (by omega)
  have hmem24 : (azIdx az).toNat ∈ List.range 24 := List.mem_range.mpr (by omega)
  rw [hrtfDB]
  apply List.mem_flatMap.mpr
  refine ⟨(elIdx el).toNat, hmem12, ?_⟩
  apply List.mem_map.mpr
  refine ⟨(azIdx az).toNat, hmem24, ?_⟩
  rw [he, ha, targetEl, targetAz]

theorem azimuth_snap_bound (az : ℝ) :
    ∃ k : ℤ, |az - ((targetAz az : ℝ) + 360 * (k : ℝ))| ≤ 15 / 2 := by
  set m := pyMod az 360 with hm
  have hm0 : 0 ≤ m := pyMod_nonneg az 360 (by norm_num)
  have hm1 : m < 360 := pyMod_lt az 360 (by norm_num)
  set r : ℤ := round (m / 15) with hr
  have habs : |m / 15 - (r : ℝ)| ≤ 1 / 2 := abs_sub_round (m / 15)
  have habs15 : |m - 15 * (r : ℝ)| ≤ 15 / 2 := by
    have heq : m - 15 * (r : ℝ) = 15 * (m / 15 - (r : ℝ)) := by ring
    rw [heq, abs_mul, abs_of_pos (by norm_num : (0 : ℝ) < 15)]
    linarith
  have hr0 : 0 ≤ r := by
    rw [hr, round_eq]
    apply Int.floor_nonneg.mpr
    have : 0 ≤ m / 15 := div_nonneg hm0 (by norm_num)
    linarith
  have hr24 : r ≤ 24 := by
    have hle : (r : ℝ) ≤ m / 15 + 1 / 2 := by linarith [(abs_le.mp habs).1]
    have hdiv : m / 15 < 24 := (div_lt_iff₀ (by norm_num : (0 : ℝ) < 15)).mpr
      (by linarith)
    have hlt : (r : ℝ) < 25 := by linarith
    have : r < 25 := by exact_mod_cast hlt
    omega
  refine ⟨⌊az / 360⌋ + r / 24, ?_⟩
  have hmod : azIdx az = r % 24 := by
    rw [azIdx, ← hm, ← hr]
  have htarget : (targetAz az : ℝ) = 15 * ((r % 24 : ℤ) : ℝ) := by
    rw [targetAz, hmod]
    push_cast
    ring
  have hemod : (r % 24 : ℤ) = r - 24 * (r / 24) := by omega
  have hfloor : m = az - 360 * ((⌊az / 360⌋ : ℤ) : ℝ) := by rw [hm, pyMod]
  have hkey : az - ((targetAz az : ℝ) +
      360 * ((⌊az / 360⌋ + r / 24 : ℤ) : ℝ)) = m - 15 * (r : ℝ) := by
    rw [htarget, hemod, hfloor]
    push_cast
    ring
  rw [hkey]
  exact habs15

theorem elevation_snap_bound (el : ℝ) (h1 : -90 ≤ el) (h2 : el ≤ 82.5) :
    |el - (targetEl el : ℝ)| ≤ 15 / 2 := by
  set e := (el + 90) / 15 with he
  set r : ℤ := round e with hr
  have habs : |e - (r : ℝ)| ≤ 1 / 2 := abs_sub_round e
  have he0 : 0 ≤ e := by
    rw [he]
    exact div_nonneg (by linarith) (by norm_num)
  have he1 : e ≤ 11.5 := by
    rw [he, div_le_iff₀ (by norm_num : (0 : ℝ) < 15)]
    linarith
  have hr0 : 0 ≤ r := by
    rw [hr, round_eq]
    apply Int.floor_nonneg.mpr
    linarith
  have hr12 : r ≤ 12 := by
    have hle : (r : ℝ) ≤ e + 1 / 2 := by linarith [(abs_le.mp habs).1]
    have : (r : ℝ) ≤ 12 := by linarith
    exact_mod_cast this
  have helr : el = 15 * e - 90 := by
    rw [he]
    field_simp
  rcases lt_or_le r 12 with hcase | hcase
  · have h11 : r ≤ 11 := by omega
    have hidx : elIdx el = r := by
      rw [elIdx, ← he, ← hr, min_eq_right h11, max_eq_right hr0]
    rw [targetEl, hidx]
    have heq : el - ((r * 15 - 90 : ℤ) : ℝ) = 15 * (e - (r : ℝ)) := by
      rw [helr]
      push_cast
      ring
    rw [heq, abs_mul, abs_of_pos (by norm_num : (0 : ℝ) < 15)]
    linarith
  · have hr' : r = 12 := le_antisymm hr12 hcase
    have hidx : elIdx el = 11 := by
      rw [elIdx, ← he, ← hr, hr']
      decide
    have hege : (11.5 : ℝ) ≤ e := by
      have hhi := (abs_le.mp habs).1
      have hcast : (r : ℝ) = 12 := by rw [hr']; norm_num
      linarith [hcast ▸ hhi]
    have heeq : e = 11.5 := le_antisymm he1 hege
    rw [targetEl, hidx, helr, heeq]
    norm_num
    rw [abs_of_nonneg]
    norm_num

theorem elevation_top_clamp (el : ℝ) (h1 : 82.5 < el) (h2 : el ≤ 90) :
    targetEl el = 75 ∧ |el - (targetEl el : ℝ)| ≤ 15 := by
  set e := (el + 90) / 15 with he
  set r : ℤ := round e with hr
  have habs : |e - (r : ℝ)| ≤ 1 / 2 := abs_sub_round e
  have he1 : (11.5 : ℝ) < e := by
    rw [he, lt_div_iff₀ (by norm_num : (0 : ℝ) < 15)]
    linarith
  have he2 : e ≤ 12 := by
    rw [he, div_le_iff₀ (by norm_num : (0 : ℝ) < 15)]
    linarith
  have hrlow : 12 ≤ r := by
    have hup := (abs_le.mp habs).2
    have : (11 : ℝ) < (r : ℝ) := by linarith
    have : (11 : ℤ) < r := by exact_mod_cast this
    omega
  have hrhigh : r ≤ 12 := by
    have hlo := (abs_le.mp habs).1
    have : (r : ℝ) < 13 := by linarith
    have : r < 13 := by exact_mod_cast this
    omega
  have hr' : r = 12 := le_antisymm hrhigh hrlow
  have hidx : elIdx el = 11 := by
    rw [elIdx, ← he, ← hr, hr']
    decide
  have htg : targetEl el = 75 := by
    rw [targetEl, hidx]
    decide
  refine ⟨htg, ?_⟩
  rw [htg]
  rw [abs_le]
  constructor <;> · push_cast; linarith

/-! ## Claim C4: HRTF snap distance -/

/-- Claim C4, counterexample.  At the request `azimuth = 0`,
`elevation = 90` (inside the claimed range `[-90, 90]`), the lookup clamps
the elevation index to `11` and returns grid elevation `75`; the elevation
error is `15`, not at most `7.5`.  (The grid generated by
`_generate_synthetic_hrtf` has no row above `75`.) -/
theorem hrtf_snap_claim_false :
    (-90 : ℝ) ≤ 90 ∧ (90 : ℝ) ≤ 90 ∧ targetEl (90 : ℝ) = 75 ∧
      ¬ |(90 : ℝ) - (targetEl (90 : ℝ) : ℝ)| ≤ 15 / 2 := by
  obtain ⟨htg, _⟩ := elevation_top_clamp (90 : ℝ) (by norm_num) le_rfl
  refine ⟨by norm_num, le_refl _, htg, ?_⟩
  rw [htg]
  norm_num

/-- Claim C4, amended.  The azimuth of the returned grid direction is always
within `7.5°` of the request modulo `360°`.  The elevation is within `7.5°`
only for requests in `[-90°, 82.5°]`; for requests in `(82.5°, 90°]` the
lookup clamps to the top grid row at `75°`, so the elevation error there is
bounded by `15°` instead. -/
theorem hrtf_snap_bounds (az el : ℝ) :
    (∃ k : ℤ, |az - ((targetAz az : ℝ) + 360 * (k : ℝ))| ≤ 15 / 2) ∧
      (-90 ≤ el → el ≤ 82.5 → |el - (targetEl el : ℝ)| ≤ 15 / 2) ∧
      (82.5 < el → el ≤ 90 →
        targetEl el = 75 ∧ |el - (targetEl el : ℝ)| ≤ 15) :=
  ⟨azimuth_snap_bound az,
    fun h1 h2 => elevation_snap_bound el h1 h2,
    fun h1 h2 => elevation_top_clamp el h1 h2⟩

/-- Witness for `hrtf_snap_bounds` at `azimuth = 0`, `elevation = 0`. -/
theorem hrtf_snap_bounds_witness :
    |(0 : ℝ) - (targetEl (0 : ℝ) : ℝ)| ≤ 15 / 2 :=
  (hrtf_snap_bounds 0 0).2.1 (by norm_num) (by norm_num)

/-! ## Claim C10: totality of the HRTF lookup -/

/-- Claim C10, confirmed.  For every real azimuth and elevation the lookup
indices satisfy `az_idx ∈ [0, 24)` and `el_idx ∈ [0, 11]`, the grid key
`(el_idx*15 - 90, az_idx*15)` is present in the database generated by
`_generate_synthetic_hrtf`, and `get_nearest_hrtf` returns a left/right
spectra pair (never the `KeyError` case). -/
theorem getNearestHrtf_total (az el : ℝ) :
    0 ≤ azIdx az ∧ azIdx az < 24 ∧ 0 ≤ elIdx el ∧ elIdx el ≤ 11 ∧
      (targetEl el, targetAz az) ∈ (hrtfDB 96000).map Prod.fst ∧
      (getNearestHrtf 96000 az el).isSome := by
  refine ⟨azIdx_nonneg az, azIdx_lt az, elIdx_nonneg el, elIdx_le el, ?_, ?_⟩
  · rw [List.mem_map]
    exact ⟨_, hrtf_key_mem az el, rfl⟩
  · exact lookup_isSome_of_mem (hrtf_key_mem az el)

end

/-! ## Geometry and the full render pipeline (`src/dsp_pipeline.py`) -/

noncomputable section

/-- Quaternion with real components, as used through
`pyquaternion.Quaternion`. -/
structure Quat where
  w : ℝ
  x : ℝ
  y : ℝ
  z : ℝ

/-- Hamilton product. -/
def qmul (a b : Quat) : Quat :=
  ⟨a.w * b.w - a.x * b.x - a.y * b.y - a.z * b.z,
   a.w * b.x + a.x * b.w + a.y * b.z - a.z * b.y,
   a.w * b.y - a.x * b.z + a.y * b.w + a.z * b.x,
   a.w * b.z + a.x * b.y - a.y * b.x + a.z * b.w⟩

/-- Quaternion conjugate. -/
def qconj (a : Quat) : Quat := ⟨a.w, -a.x, -a.y, -a.z⟩

/-- Squared quaternion norm. -/
def qnormSq (a : Quat) : ℝ := a.w ^ 2 + a.x ^ 2 + a.y ^ 2 + a.z ^ 2

/-- `Quaternion.inverse` of pyquaternion: the conjugate divided by the
squared norm. -/
def qinv (a : Quat) : Quat :=
  ⟨a.w / qnormSq a, -a.x / qnormSq a, -a.y / qnormSq a, -a.z / qnormSq a⟩

/-- `Quaternion.rotate`: conjugation `q v q*` of the pure quaternion of `v`,
scaled by the inverse squared norm (pyquaternion normalizes `q` before
conjugating; `(q/|q|) v (conj q/|q|) = (q v (conj q)) / |q|²` exactly). -/
def qrotate (q : Quat) (v : Fin 3 → ℝ) : Fin 3 → ℝ :=
  let p := qmul (qmul q ⟨0, v 0, v 1, v 2⟩) (qconj q)
  fun i => (1 / qnormSq q) * ![p.x, p.y, p.z] i

/-- Euclidean norm of a 3-vector (`np.linalg.norm`). -/
def norm3 (v : Fin 3 → ℝ) : ℝ := Real.sqrt (v 0 ^ 2 + v 1 ^ 2 + v 2 ^ 2)

/-- numpy `arctan2(y, x)`: the angle of the point `(x, y)`, in `(-pi, pi]`. -/
def atan2 (y x : ℝ) : ℝ := Complex.arg ⟨x, y⟩

/-- `np.degrees`. -/
def radToDeg (r : ℝ) : ℝ := r * 180 / Real.pi

/-- Fourier-domain resampling of a block to `m` samples, modelling
`scipy.signal.resample` (take the DFT, keep the lowest frequencies, inverse
transform at the new length, scale by `m/n`).  Not exercised by any theorem
below: the pipeline always calls the Doppler stage with zero radial
velocity, which returns through the identity branch of `applyDoppler`. -/
def resampleDFT (xs : List ℝ) (m : ℕ) : List ℝ :=
  let n := xs.length
  let X : ℕ → ℂ := fun j =>
    if h : j < n then dft n (fun i => ((xs.getD i 0 : ℝ) : ℂ)) ⟨j, h⟩ else 0
  let Y : Fin m → ℂ := fun k =>
    if 2 * (k : ℕ) ≤ m then X k else X (n - (m - (k : ℕ)))
  List.ofFn fun k : Fin m => ((m : ℝ) / n) * (idft m Y k).re

/-- Embeds `EnvironmentDSP.apply_doppler` (src/eq_reverb.py:29-51): factor
`c / (c + v)` with `c = 343`; identity when `|factor - 1| < 0.001`;
otherwise resample to `int(len(chunk) * factor)` samples (`int()` truncates
toward zero) and truncate or zero-pad back to the block length. -/
def applyDoppler (chunk : List ℝ) (v : ℝ) : List ℝ :=
  let factor := speedOfSound / (speedOfSound + v)
  if |factor - 1| < 0.001 then chunk
  else
    let x := (chunk.length : ℝ) * factor
    let num : ℤ := if 0 ≤ x then ⌊x⌋ else ⌈x⌉
    if num ≤ 0 then chunk
    else
      let res := resampleDFT chunk num.toNat
      if chunk.length < res.length then res.take chunk.length
      else res ++ List.replicate (chunk.length - res.length) 0

/-- Embeds `HRTF_Engine.spatialize_source` (src/hrtf_engine.py:76-87): FFT
of the chunk at length `fft_size = 2048` (zero-padded), pointwise product
with the looked-up left/right spectra, inverse FFT, real part, first
`len(chunk)` samples.  The `getD` default is never reached: the lookup is
total (`getNearestHrtf_total`). -/
def spatializeSource (sr : ℕ) (chunk : List ℝ) (azimuth elevation : ℝ) :
    List ℝ × List ℝ :=
  let pair := (getNearestHrtf sr azimuth elevation).getD
    (fun _ => 0, fun _ => 0)
  let X := dft fftSize fun j => ((chunk.getD j 0 : ℝ) : ℂ)
  let outL := (List.ofFn fun k : Fin fftSize =>
    (idft fftSize (fun j => X j * pair.1 j) k).re).take chunk.length
  let outR := (List.ofFn fun k : Fin fftSize =>
    (idft fftSize (fun j => X j * pair.2 j) k).re).take chunk.length
  (outL, outR)

/-- One iteration of the source loop of `DSPPipeline.process`
(src/dsp_pipeline.py:30-52): listener-relative geometry, azimuth/elevation,
distance attenuation `1/(d+1)` with `d = max(dist, 0.1)`, Doppler at the
zero radial velocity the pipeline passes, HRTF spatialization at the
pipeline's sample rate 96000. -/
def processSource (chunk : List ℝ) (srcPos lpos : Fin 3 → ℝ) (lq : Quat) :
    List ℝ × List ℝ :=
  let rel := fun i => srcPos i - lpos i
  let lcl := qrotate (qinv lq) rel
  let dist0 := norm3 lcl
  let dist := if dist0 < 0.1 then 0.1 else dist0
  let azimuth := radToDeg (atan2 (lcl 0) (lcl 1))
  let elevation := radToDeg (Real.arcsin (lcl 2 / dist))
  let att := chunk.map fun s => s * (1 / (dist + 1))
  let processed := applyDoppler att 0
  spatializeSource 96000 processed azimuth elevation

/-- Embeds `DSPPipeline.process` (src/dsp_pipeline.py:18-63) for block size
`n`: accumulate all spatialized sources into zero-initialized mix buffers,
apply EQ then reverb per channel on the shared environment state
(`postMixStereo`), then crosstalk cancellation. -/
def processBlock (n : ℕ) (env : EnvironmentDSP ℝ)
    (sources : List (List ℝ × (Fin 3 → ℝ))) (lpos : Fin 3 → ℝ) (lq : Quat) :
    (List ℝ × List ℝ) × EnvironmentDSP ℝ :=
  let mixed := sources.foldl
    (fun (acc : List ℝ × List ℝ) src =>
      let lr := processSource src.1 src.2 lpos lq
      (List.zipWith (· + ·) acc.1 lr.1, List.zipWith (· + ·) acc.2 lr.2))
    (List.replicate n 0, List.replicate n 0)
  let pm := postMixStereo env mixed.1 mixed.2
  let fin := ctcProcess pm.1.1 pm.1.2
  (fin, pm.2)

/-- Renders a sequence of blocks, threading the reverb state — the only
state carried between blocks besides the source cursors.  Each block input
carries its per-source `(chunk, world position)` pairs and the listener
pose read for that block. -/
def processBlocks (n : ℕ) :
    List (List (List ℝ × (Fin 3 → ℝ)) × (Fin 3 → ℝ) × Quat) →
    EnvironmentDSP ℝ → List (List ℝ × List ℝ) × EnvironmentDSP ℝ
  | [], env => ([], env)
  | b :: rest, env =>
      let r := processBlock n env b.1 b.2.1 b.2.2
      let rr := processBlocks n rest r.2
      (r.1 :: rr.1, rr.2)

/-- Invariant threaded through the silence-propagation proof: the reverb
buffer has its initialized length `B`, holds only zeros, and the cursor
leaves room for one block of `n` samples. -/
def ZeroEnvInv (B n : ℕ) (env : EnvironmentDSP ℝ) : Prop :=
  env.reverb_buffer.length = B ∧ (∀ a ∈ env.reverb_buffer, a = 0) ∧
    env.ptr + n ≤ B

theorem getD_replicate {α : Type} (d : α) (r n : ℕ) :
    (List.replicate r d).getD n d = d := by
  rw [List.getD_eq_getElem?_getD, List.getElem?_replicate]
  split_ifs <;> rfl

theorem dft_zero (n : ℕ) : dft n (fun _ => 0) = fun _ => 0 := by
  funext k
  simp [dft]

theorem idft_zero (n : ℕ) : idft n (fun _ => 0) = fun _ => 0 := by
  funext k
  simp [idft]

theorem applyDoppler_identity (chunk : List ℝ) : applyDoppler chunk 0 = chunk := by
  rw [applyDoppler]
  have hfac : |speedOfSound / (speedOfSound + 0) - 1| < 0.001 := by
    rw [speedOfSound]
    norm_num
  rw [if_pos hfac]

theorem spatializeSource_zero (sr n : ℕ) (hn : n ≤ fftSize) (az el : ℝ) :
    spatializeSource sr (List.replicate n 0) az el =
      (List.replicate n 0, List.replicate n 0) := by
  have hpad : (fun j : Fin fftSize =>
      (((List.replicate n (0 : ℝ)).getD (j : ℕ) 0 : ℝ) : ℂ)) =
      fun _ => (0 : ℂ) := by
    funext j
    rw [getD_replicate]
    exact Complex.ofReal_zero
  rw [spatializeSource]
  simp only [hpad, dft_zero]
  have hmul : ∀ g : Fin fftSize → ℂ,
      (fun j : Fin fftSize => (fun _ : Fin fftSize => (0 : ℂ)) j * g j) =
        fun _ => (0 : ℂ) := by
    intro g
    funext j
    simp
  rw [hmul, hmul, idft_zero]
  simp only [Complex.zero_re, List.ofFn_const, List.length_replicate]
  rw [replicate_take, min_eq_left hn]

theorem processSource_zero (n : ℕ) (hn : n ≤ fftSize)
    (srcPos lpos : Fin 3 → ℝ) (lq : Quat) :
    processSource (List.replicate n 0) srcPos lpos lq =
      (List.replicate n 0, List.replicate n 0) := by
  rw [processSource]
  have hatt : (List.replicate n (0 : ℝ)).map
      (fun s => s * (1 / ((if norm3 (qrotate (qinv lq) fun i => srcPos i - lpos i) < 0.1
        then 0.1 else norm3 (qrotate (qinv lq) fun i => srcPos i - lpos i)) + 1))) =
      List.replicate n 0 := by
    rw [List.map_replicate, zero_mul]
  simp only [hatt, applyDoppler_identity]
  exact spatializeSource_zero 96000 n hn _ _

theorem zipWith_add_replicate_zero :
    ∀ n : ℕ, List.zipWith (· + ·) (List.replicate n (0 : ℝ))
      (List.replicate n 0) = List.replicate n 0
  | 0 => rfl
  | k + 1 => by
      simp only [List.replicate_succ, List.zipWith_cons_cons, add_zero]
      rw [zipWith_add_replicate_zero k]

theorem mix_fold_zero (n : ℕ) (hn : n ≤ fftSize) (lpos : Fin 3 → ℝ) (lq : Quat) :
    ∀ ps : List (Fin 3 → ℝ),
      (ps.map fun p => (List.replicate n (0 : ℝ), p)).foldl
        (fun (acc : List ℝ × List ℝ) src =>
          let lr := processSource src.1 src.2 lpos lq
          (List.zipWith (· + ·) acc.1 lr.1, List.zipWith (· + ·) acc.2 lr.2))
        (List.replicate n 0, List.replicate n 0) =
      (List.replicate n 0, List.replicate n 0)
  | [] => rfl
  | p :: ps => by
      simp only [List.map_cons, List.foldl_cons]
      rw [processSource_zero n hn p lpos lq]
      simp only [zipWith_add_replicate_zero n]
      exact mix_fold_zero n hn lpos lq ps

theorem listPeak_replicate_zero {K : Type} [LinearOrderedField K] :
    ∀ n : ℕ, listPeak (List.replicate n (0 : K)) = 0
  | 0 => rfl
  | k + 1 => by
      simp only [listPeak, List.replicate_succ, List.foldr_cons, abs_zero]
      have := listPeak_replicate_zero (K := K) k
      rw [listPeak] at this
      rw [this, max_self]

theorem zipWith_ctcFeed_replicate_zero (n : ℕ) :
    List.zipWith ctcFeed (List.replicate n (0 : ℝ)) (List.replicate n 0) =
      List.replicate n 0 := by
  induction n with
  | zero => rfl
  | succ k ih =>
      simp only [List.replicate_succ, List.zipWith_cons_cons, ih]
      have h0 : ctcFeed (0 : ℝ) 0 = 0 := by
        rw [ctcFeed, ctcAlpha]
        ring
      rw [h0]

theorem ctcProcess_zero (n : ℕ) :
    ctcProcess (List.replicate n (0 : ℝ)) (List.replicate n 0) =
      (List.replicate n 0, List.replicate n 0) := by
  rw [ctcProcess]
  simp only [zipWith_ctcFeed_replicate_zero n]
  rw [listPeak_append, listPeak_replicate_zero, max_self]
  rw [if_neg (by norm_num : ¬ (1 : ℝ) < 0)]

theorem applyEq_replicate_zero (env : EnvironmentDSP ℝ) (n : ℕ) :
    applyEq env (List.replicate n 0) = List.replicate n 0 := by
  rw [applyEq, List.map_replicate, zero_mul]

theorem applyReverb_zero {B n : ℕ} (hb : n < B) (env : EnvironmentDSP ℝ)
    (h : ZeroEnvInv B n env) :
    (applyReverb env (List.replicate n 0)).1 = List.replicate n 0 ∧
      ZeroEnvInv B n (applyReverb env (List.replicate n 0)).2 := by
  obtain ⟨hlen, hzero, hptr⟩ := h
  have hslice_sub : (env.reverb_buffer.drop env.ptr).take n ⊆
      env.reverb_buffer :=
    fun a ha => List.drop_subset _ _ (List.take_subset _ _ ha)
  have hslice_len : ((env.reverb_buffer.drop env.ptr).take n).length = n := by
    simp only [List.length_take, List.length_drop, hlen]
    omega
  constructor
  · rw [applyReverb]
    simp only [List.length_replicate]
    rw [zipWith_replicate_left _ _ _ n hslice_len.symm]
    apply List.eq_replicate_iff.mpr
    refine ⟨by rw [List.length_map, hslice_len], ?_⟩
    intro b hbmem
    obtain ⟨a, hamem, rfl⟩ := List.mem_map.mp hbmem
    rw [hzero a (hslice_sub hamem)]
    ring
  · refine ⟨?_, ?_, ?_⟩
    · rw [applyReverb]
      simp only [setSlice, List.length_replicate, List.length_append,
        List.length_take, List.length_drop, hlen]
      omega
    · rw [applyReverb]
      simp only [setSlice, List.length_replicate]
      intro a ha
      rcases List.mem_append.mp ha with h1 | h2
      · rcases List.mem_append.mp h1 with h3 | h4
        · exact hzero a (List.take_subset _ _ h3)
        · exact List.eq_of_mem_replicate h4
      · exact hzero a (List.drop_subset _ _ h2)
    · rw [applyReverb]
      simp only [List.length_replicate, hlen]
      have hmod : (env.ptr + n) % (B - n) < B - n :=
        Nat.mod_lt _ (by omega)
      omega

theorem postMixStereo_zero {B n : ℕ} (hb : n < B) (env : EnvironmentDSP ℝ)
    (h : ZeroEnvInv B n env) :
    (postMixStereo env (List.replicate n 0) (List.replicate n 0)).1 =
        (List.replicate n 0, List.replicate n 0) ∧
      ZeroEnvInv B n
        (postMixStereo env (List.replicate n 0) (List.replicate n 0)).2 := by
  obtain ⟨hout1, hinv1⟩ := applyReverb_zero hb env h
  obtain ⟨hout2, hinv2⟩ :=
    applyReverb_zero hb (applyReverb env (List.replicate n 0)).2 hinv1
  rw [postMixStereo]
  simp only [applyEq_replicate_zero]
  exact ⟨by rw [hout1, hout2], hinv2⟩

theorem processBlock_zero {B : ℕ} (hb : 1024 < B) (env : EnvironmentDSP ℝ)
    (h : ZeroEnvInv B 1024 env) (ps : List (Fin 3 → ℝ))
    (lpos : Fin 3 → ℝ) (lq : Quat) :
    (processBlock 1024 env (ps.map fun p => (List.replicate 1024 0, p))
        lpos lq).1 = (List.replicate 1024 0, List.replicate 1024 0) ∧
      ZeroEnvInv B 1024
        (processBlock 1024 env (ps.map fun p => (List.replicate 1024 0, p))
          lpos lq).2 := by
  obtain ⟨hpm, hinv⟩ := postMixStereo_zero hb env h
  rw [processBlock]
  rw [mix_fold_zero 1024 (by rw [fftSize]; omega) lpos lq ps]
  have hl : (postMixStereo env (List.replicate 1024 0)
      (List.replicate 1024 0)).1.1 = List.replicate 1024 0 := by rw [hpm]
  have hr : (postMixStereo env (List.replicate 1024 0)
      (List.replicate 1024 0)).1.2 = List.replicate 1024 0 := by rw [hpm]
  rw [hl, hr, ctcProcess_zero]
  exact ⟨rfl, hinv⟩

theorem processBlocks_zero {B : ℕ} (hb : 1024 < B) :
    ∀ (blocks : List (List (Fin 3 → ℝ) × (Fin 3 → ℝ) × Quat))
      (env : EnvironmentDSP ℝ), ZeroEnvInv B 1024 env →
      (processBlocks 1024
        (blocks.map fun b =>
          (b.1.map fun p => (List.replicate 1024 (0 : ℝ), p), b.2))
        env).1 =
        blocks.map fun _ => (List.replicate 1024 (0 : ℝ), List.replicate 1024 0)
  | [], env, _ => rfl
  | b :: rest, env, h => by
      obtain ⟨hout, hinv⟩ := processBlock_zero hb env h b.1 b.2.1 b.2.2
      simp only [List.map_cons, processBlocks]
      rw [hout, processBlocks_zero hb rest _ hinv]

/-! ## Claim C3: silence propagation -/

/-- Claim C3, confirmed.  Starting from the initialized (all-zero) reverb
state, if every source supplies an all-zero 1024-sample chunk in every
block, then for every sequence of blocks, every set of source positions per
block, and every listener pose per block, the full pipeline (attenuation,
Doppler, HRTF convolution, mix, EQ, reverb, crosstalk cancellation with
peak normalization) outputs all-zero left and right blocks throughout. -/
theorem silence_propagation
    (blocks : List (List (Fin 3 → ℝ) × (Fin 3 → ℝ) × Quat)) :
    (processBlocks 1024
      (blocks.map fun b =>
        (b.1.map fun p => (List.replicate 1024 (0 : ℝ), p), b.2))
      (envInit ℝ 96000)).1 =
      blocks.map fun _ =>
        (List.replicate 1024 (0 : ℝ), List.replicate 1024 0) := by
  apply processBlocks_zero (B := 48000) (by omega)
  refine ⟨?_, ?_, ?_⟩
  · show (List.replicate (96000 / 2) (0 : ℝ)).length = 48000
    rw [List.length_replicate]
  · show ∀ a ∈ List.replicate (96000 / 2) (0 : ℝ), a = 0
    intro a ha
    exact List.eq_of_mem_replicate ha
  · show (0 : ℕ) + 1024 ≤ 48000
    omega

end

end Soundscape
